import Mathlib

/-!
Shallow embedding of the classification orchestration engine of the
NCPI dataset catalog (directory catalog-build/classification): the rule
matcher of classify.py, the batch orchestrator and concept normalizer of
llm_concept_classify.py, and the coverage aggregator of coverage_report.py.

External collaborators are modelled as explicit parameters:
the Python stdlib regex engine (re.search) becomes a function argument
of type String to String to Bool; the inference-service agent becomes an
oracle giving the outcome of each attempt or batch; asyncio.gather with
return_exceptions=True becomes a map producing per-item Except values in
input order (its documented contract). File and console output is modelled
by returning the data that the code would write or print.
-/

namespace NCPI

/-- One entry of the variables list of a parsed table, as built by
parse_var_reports.parse_var_report: a dict with keys name, description, id. -/
structure VarInfo where
  name : String
  description : String
  id : String
deriving DecidableEq, Repr

/-- models.ParsedTable. -/
structure ParsedTable where
  study_id : String
  dataset_id : String
  table_name : String
  study_name : String
  description : String
  vars : List VarInfo
  variable_count : Nat
  file_path : String
deriving DecidableEq, Repr

/-- models.Rule. -/
structure Rule where
  match_field : String
  pattern : String
  concept : String
  domain : String
  rationale : Option String
  description : Option String
deriving DecidableEq, Repr

/-- models.Classification. -/
structure Classification where
  study_id : String
  dataset_id : String
  table_name : String
  concept : String
  domain : String
  phase : Nat
  rule_source : String
  variable_count : Nat
  vars : List VarInfo
deriving DecidableEq, Repr

/-- models.CoverageStats.  Counts that the code computes by Python int
subtraction are Int (they could in principle go negative); the rate is a
rational standing for the Python float. -/
structure CoverageStats where
  study_id : String
  study_name : String
  total_tables : Nat
  classified_tables : Nat
  unclassified_tables : Int
  total_variables : Nat
  classified_variables : Nat
  unclassified_variables : Int
  classification_rate : ℚ
  concepts : List (String × Nat)
deriving DecidableEq, Repr

/-- classify.match_table, with the external regex engine re.search passed
in as the argument reSearch (pattern, value, result of the substring
search).  Mirrors the loop: select the field value per match_field,
skip rules with an unknown match_field, return the first rule whose
pattern search succeeds. -/
def match_table (reSearch : String → String → Bool) (table : ParsedTable) :
    List Rule → Option Rule
  | [] => none
  | rule :: rest =>
    if rule.match_field = "tableName" then
      if reSearch rule.pattern table.table_name then some rule
      else match_table reSearch table rest
    else if rule.match_field = "description" then
      if reSearch rule.pattern table.description then some rule
      else match_table reSearch table rest
    else match_table reSearch table rest

/-- Specification-side predicate: the rule has a known match_field and its
pattern search succeeds on the selected field value of the table. -/
def ruleMatches (reSearch : String → String → Bool) (table : ParsedTable)
    (rule : Rule) : Bool :=
  if rule.match_field = "tableName" then reSearch rule.pattern table.table_name
  else if rule.match_field = "description" then reSearch rule.pattern table.description
  else false

/-- A rule has one of the two recognized match fields. -/
def knownField (rule : Rule) : Bool :=
  rule.match_field == "tableName" || rule.match_field == "description"

/-- Literal substring search: an executable instance of the reSearch
parameter, agreeing with re.search on metacharacter-free patterns.
startsWithChars p v checks that p is an initial segment of v. -/
def startsWithChars : List Char → List Char → Bool
  | [], _ => true
  | _ :: _, [] => false
  | c :: p, d :: v => c == d && startsWithChars p v

/-- hasSubChars p v checks that p occurs as a contiguous run inside v
starting at any position (substring search, not anchored full match). -/
def hasSubChars : List Char → List Char → Bool
  | p, [] => p.isEmpty
  | p, d :: rest => startsWithChars p (d :: rest) || hasSubChars p rest

/-- String form of the literal substring search. -/
def litSearch (pat s : String) : Bool :=
  hasSubChars pat.toList s.toList

/-- The Classification record built at classify.classify_tables for a
matched table, with sourceTag the provenance tag (the study id for a
study-rule match, the string _default for a default-rule match). -/
def mkClassification (study_id : String) (table : ParsedTable) (rule : Rule)
    (sourceTag : String) : Classification :=
  { study_id := study_id
    dataset_id := table.dataset_id
    table_name := table.table_name
    concept := rule.concept
    domain := rule.domain
    phase := 1
    rule_source := sourceTag ++ ":" ++ rule.match_field ++ ":" ++ rule.pattern
    variable_count := table.variable_count
    vars := table.vars }

/-- The per-table body of the loop in classify.classify_tables: try the
study rules first; only when none matches, try the default rules; tag the
provenance with the study id resp. _default. -/
def classifyOne (reSearch : String → String → Bool) (study_id : String)
    (study_rules default_rules : List Rule) (table : ParsedTable) :
    Option Classification :=
  match match_table reSearch table study_rules with
  | some rule => some (mkClassification study_id table rule study_id)
  | none =>
    match match_table reSearch table default_rules with
    | some rule => some (mkClassification study_id table rule "_default")
    | none => none

/-- The sorted list of distinct study ids of the input tables
(sorted over the keys of the defaultdict grouping). -/
def sortedStudyIds (tables : List ParsedTable) : List String :=
  List.insertionSort (· ≤ ·) ((tables.map (·.study_id)).dedup)

/-- classify.classify_tables with load_rules (disk access) passed in as
rulesFor, giving the pair (study rules, default rules) of a study id, and
re.search passed in as reSearch.  Grouping by study id, iteration over
sorted study ids, and the optional study filter mirror the source; the
dry-run printing changes no returned data and is omitted. -/
def classify_tables (reSearch : String → String → Bool)
    (rulesFor : String → List Rule × List Rule) (tables : List ParsedTable)
    (study_filter : Option String) : List Classification :=
  let ids := sortedStudyIds tables
  let ids := match study_filter with
    | some s => ids.filter (· == s)
    | none => ids
  ids.flatMap (fun sid =>
    (tables.filter (·.study_id == sid)).filterMap
      (classifyOne reSearch sid (rulesFor sid).1 (rulesFor sid).2))

/-- llm_concept_classify.MAX_RETRIES. -/
def MAX_RETRIES : Nat := 5

/-- llm_concept_classify.VARS_PER_BATCH. -/
def VARS_PER_BATCH : Nat := 100

/-- Outcome of one attempt of the agent run inside classify_batch:
a structured success with token usage, a ModelHTTPError with its status
code, or any other exception (which the code does not catch). -/
inductive AgentOutcome (α : Type) where
  | success (v : α) (tokIn tokOut : Nat)
  | httpError (status : Nat)
  | failure
deriving DecidableEq, Repr

/-- Error class propagated out of classify_batch. -/
inductive RunError where
  | http (status : Nat)
  | other
deriving DecidableEq, Repr

/-- The retry loop of llm_concept_classify.classify_batch, with the agent
modelled by resp giving the outcome of each numbered attempt.  fuel is the
number of retries still allowed, so that fuel is positive exactly when
attempt is below MAX_RETRIES.  The second component lists the backoff
sleeps performed (2 to the power attempt, doubling per attempt). -/
def classifyBatchGo {α : Type} (resp : Nat → AgentOutcome α) :
    Nat → Nat → Except RunError (α × Nat × Nat) × List Nat
  | attempt, fuel =>
    match resp attempt, fuel with
    | .success v ti tout, _ => (.ok (v, ti, tout), [])
    | .failure, _ => (.error .other, [])
    | .httpError s, 0 => (.error (.http s), [])
    | .httpError s, fuel + 1 =>
      if s = 429 then
        let r := classifyBatchGo resp (attempt + 1) fuel
        (r.1, 2 ^ attempt :: r.2)
      else (.error (.http s), [])

/-- llm_concept_classify.classify_batch: attempts start at 1 and at most
MAX_RETRIES attempts are made. -/
def classify_batch {α : Type} (resp : Nat → AgentOutcome α) :
    Except RunError (α × Nat × Nat) × List Nat :=
  classifyBatchGo resp 1 (MAX_RETRIES - 1)

/-- LLMVariableConcept output model. -/
structure LLMVariableConcept where
  variable_name : String
  concept : String
deriving DecidableEq, Repr

/-- One entry of the variables list of a per-study concept artifact:
a dict with keys name, description, concept. -/
structure VarRecord where
  name : String
  description : String
  concept : String
deriving DecidableEq, Repr

/-- Structural helper for chunkList: fuel bounds the number of chunks; any
fuel of at least the list length gives the range(0, len, K) slicing. -/
def chunkListAux {α : Type} (K : Nat) : Nat → List α → List (List α)
  | _, [] => []
  | 0, _ :: _ => []
  | fuel + 1, x :: xs => (x :: xs.take (K - 1)) :: chunkListAux K fuel (xs.drop (K - 1))

/-- Chunking of a list into consecutive pieces of size K, as done by
range(0, len(all_vars), VARS_PER_BATCH) slicing; faithful for K at least 1
(the source only uses K = VARS_PER_BATCH = 100). -/
def chunkList {α : Type} (K : Nat) (l : List α) : List (List α) :=
  chunkListAux K l.length l

/-- The desc_by_name dict comprehension of classify_table_concepts: maps a
variable name to its description, the last occurrence winning as in a
Python dict comprehension, and defaulting to the empty string. -/
def descByName (vars0 : List VarInfo) (n : String) : String :=
  match vars0.reverse.find? (fun v => v.name == n) with
  | some v => v.description
  | none => ""

/-- The dedup loop of classify_table_concepts: keep the first occurrence
of each variable name, building one output record per kept entry. -/
def dedupAssign (descOf : String → String) :
    List LLMVariableConcept → List String → List VarRecord
  | [], _ => []
  | vc :: rest, seen =>
    if vc.variable_name ∈ seen then dedupAssign descOf rest seen
    else { name := vc.variable_name
           description := descOf vc.variable_name
           concept := vc.concept } :: dedupAssign descOf rest (vc.variable_name :: seen)

/-- llm_concept_classify.classify_table_concepts, with the per-batch agent
call classify_batch modelled by batchFn giving list of concept assignments
and token counts of a batch: chunk the variables, concatenate the batch
outputs and token counts, then deduplicate by variable name keeping first
occurrences. -/
def classify_table_concepts
    (batchFn : List VarInfo → List LLMVariableConcept × Nat × Nat)
    (table : ParsedTable) : List VarRecord × Nat × Nat :=
  let all_vars := table.vars
  let batches := chunkList VARS_PER_BATCH all_vars
  let acc := batches.foldl
    (fun (acc : List LLMVariableConcept × Nat × Nat) b =>
      let r := batchFn b
      (acc.1 ++ r.1, acc.2.1 + r.2.1, acc.2.2 + r.2.2))
    ([], 0, 0)
  (dedupAssign (descByName all_vars) acc.1 [], acc.2.1, acc.2.2)

/-- One table of a per-study concept artifact as written by
write_study_concepts. -/
structure TableData where
  tableName : String
  datasetId : String
  description : Option String
  concepts : List String
  vars : List VarRecord
deriving DecidableEq, Repr

/-- A per-study concept artifact. -/
structure StudyData where
  studyId : String
  studyName : String
  tables : List TableData
deriving DecidableEq, Repr

/-- sorted(set(..)) over strings: the ascending list of distinct values. -/
def sortedDedup (l : List String) : List String :=
  List.insertionSort (· ≤ ·) l.dedup

/-- The table entry appended by the collection loop of
classify_study_concepts: description empty becomes None, concepts is the
sorted set of the concepts of the variables. -/
def mkTableData (t : ParsedTable) (vars : List VarRecord) : TableData :=
  { tableName := t.table_name
    datasetId := t.dataset_id
    description := if t.description = "" then none else some t.description
    concepts := sortedDedup (vars.map (·.concept))
    vars := vars }

/-- The collection loop after the gather barrier of classify_study_concepts:
an Exception item only bumps the error count, a success item contributes
one table entry and its token counts.  Returns (tables, errors, tokens in,
tokens out). -/
def collectTables :
    List (ParsedTable × Except String (List VarRecord × Nat × Nat)) →
      List TableData × Nat × Nat × Nat
  | [] => ([], 0, 0, 0)
  | (_, .error _) :: rest =>
    let r := collectTables rest
    (r.1, r.2.1 + 1, r.2.2.1, r.2.2.2)
  | (t, .ok d) :: rest =>
    let r := collectTables rest
    (mkTableData t d.1 :: r.1, r.2.1, d.2.1 + r.2.2.1, d.2.2 + r.2.2.2)

/-- llm_concept_classify.classify_study_concepts, with the per-table task
body (classify_table_concepts under the semaphore) modelled by outcome:
an Except value standing for the value or exception that asyncio.gather
with return_exceptions=True delivers for that table, in input order.
Tables are sorted by table name before the fan-out.  Returns the artifact
dict together with the error count and token totals that the code reports
on stderr.  The function is total: per-table errors are data, never an
escaping exception. -/
def classify_study_concepts
    (outcome : ParsedTable → Except String (List VarRecord × Nat × Nat))
    (study_id : String) (tables : List ParsedTable) :
    StudyData × Nat × Nat × Nat :=
  let study_name := match tables with
    | [] => study_id
    | t :: _ => t.study_name
  let sorted_tables :=
    List.insertionSort (fun a b => a.table_name ≤ b.table_name) tables
  let results := sorted_tables.map (fun t => (t, outcome t))
  let c := collectTables results
  ({ studyId := study_id, studyName := study_name, tables := c.1 },
    c.2.1, c.2.2.1, c.2.2.2)

/-- Synonym group produced by the normalization agent. -/
structure ConceptGroup where
  canonical : String
  synonyms : List String
deriving DecidableEq, Repr

/-- Insertion into a Python dict modelled as an association list: update
the binding in place if the key exists, append otherwise. -/
def setKey : List (String × String) → String → String → List (String × String)
  | [], k, v => [(k, v)]
  | (k0, v0) :: rest, k, v =>
    if k0 == k then (k0, v) :: rest else (k0, v0) :: setKey rest k v

/-- Lookup in the dict model. -/
def mapGet (m : List (String × String)) (k : String) : Option String :=
  (m.find? (fun p => p.1 == k)).map (·.2)

/-- The mapping-building loop of normalize_concepts: for every group, map
each synonym to the canonical name, skipping only a synonym equal to its
own canonical. -/
def buildMapping (groups : List ConceptGroup) : List (String × String) :=
  groups.foldl
    (fun m g =>
      g.synonyms.foldl
        (fun m syn => if syn ≠ g.canonical then setKey m syn g.canonical else m)
        m)
    []

/-- The per-variable replacement of the rewrite loop of normalize_concepts:
replace the concept when it is a key of the mapping; the flag records
whether a replacement happened. -/
def applyVar (m : List (String × String)) (v : VarRecord) : VarRecord × Bool :=
  match mapGet m v.concept with
  | some c => ({ v with concept := c }, true)
  | none => (v, false)

/-- The inner loop over the variables of one table: rewrite each variable,
or-accumulating the changed flag. -/
def applyVars (m : List (String × String)) :
    List VarRecord → List VarRecord × Bool
  | [] => ([], false)
  | v :: rest =>
    let h := applyVar m v
    let r := applyVars m rest
    (h.1 :: r.1, h.2 || r.2)

/-- The per-table step of the rewrite loop: rewrite the variables and, when
the file-level changed flag (incoming changed or any variable of this
table changed) is set, rebuild the table-level concepts list as the sorted
set of the variable concepts. -/
def applyTable (m : List (String × String)) (changed : Bool) (t : TableData) :
    TableData × Bool :=
  let r := applyVars m t.vars
  let c2 := changed || r.2
  let t2 := { t with vars := r.1 }
  if c2 then ({ t2 with concepts := sortedDedup (r.1.map (·.concept)) }, c2)
  else (t2, c2)

/-- The loop over the tables of one artifact, threading the file-level
changed flag left to right as the Python loop does. -/
def applyTables (m : List (String × String)) (changed : Bool) :
    List TableData → List TableData × Bool
  | [] => ([], changed)
  | t :: rest =>
    let h := applyTable m changed t
    let r := applyTables m h.2 rest
    (h.1 :: r.1, r.2)

/-- The whole rewrite pass of normalize_concepts on one persisted artifact:
returns the rewritten data and the changed flag. -/
def applyStudy (m : List (String × String)) (d : StudyData) :
    StudyData × Bool :=
  let r := applyTables m false d.tables
  ({ d with tables := r.1 }, r.2)

/-- The disk write decision of normalize_concepts: the artifact is written
back exactly when the changed flag is set; the returned value is the data
written, none meaning the file is left untouched. -/
def rewriteStudy (m : List (String × String)) (d : StudyData) :
    Option StudyData :=
  let r := applyStudy m d
  if r.2 then some r.1 else none

/-- Round half to even of a rational, the rounding Python round performs. -/
def roundHalfEven (q : ℚ) : ℤ :=
  let f := ⌊q⌋
  if q - f < 1 / 2 then f
  else if q - f > 1 / 2 then f + 1
  else if f % 2 = 0 then f else f + 1

/-- Python round(x, 1). -/
def pyRound1 (q : ℚ) : ℚ := (roundHalfEven (q * 10) : ℚ) / 10

/-- The defaultdict(int) histogram update of compute_study_coverage: add
n to the count of key k, first occurrence fixing the position. -/
def addCount : List (String × Nat) → String → Nat → List (String × Nat)
  | [], k, n => [(k, n)]
  | (k0, v) :: rest, k, n =>
    if k0 == k then (k0, v + n) :: rest else (k0, v) :: addCount rest k n

/-- The concepts histogram of compute_study_coverage: accumulate the
variable counts per concept, then stable-sort descending by count. -/
def conceptHistogram (cs : List Classification) : List (String × Nat) :=
  List.insertionSort (fun a b => b.2 ≤ a.2)
    (cs.foldl (fun m c => addCount m c.concept c.variable_count) [])

/-- coverage_report.compute_study_coverage.  The Python code indexes
tables[0], raising on an empty list; that fallible access is modelled by
returning none for an empty input. -/
def compute_study_coverage (tables : List ParsedTable)
    (classifications : List Classification) : Option CoverageStats :=
  match tables with
  | [] => none
  | t0 :: _ =>
    let total_tables : Nat := tables.length
    let total_vars : Nat := (tables.map (·.variable_count)).sum
    let classified_tables : Nat :=
      (tables.filter (fun t =>
        classifications.any (fun c => c.dataset_id == t.dataset_id))).length
    let classified_vars : Nat := (classifications.map (·.variable_count)).sum
    let rate : ℚ :=
      if total_vars > 0 then (classified_vars : ℚ) / (total_vars : ℚ) * 100 else 0
    some
      { study_id := t0.study_id
        study_name := t0.study_name
        total_tables := total_tables
        classified_tables := classified_tables
        unclassified_tables := (total_tables : Int) - (classified_tables : Int)
        total_variables := total_vars
        classified_variables := classified_vars
        unclassified_variables := (total_vars : Int) - (classified_vars : Int)
        classification_rate := pyRound1 rate
        concepts := conceptHistogram classifications }

/-- Sample rule: matches table names containing the run enroll. -/
def c1RuleA : Rule :=
  { match_field := "tableName", pattern := "enroll", concept := "a", domain := "A",
    rationale := none, description := none }

/-- Sample rule: matches table names containing the run roll. -/
def c1RuleB : Rule :=
  { match_field := "tableName", pattern := "roll", concept := "b", domain := "B",
    rationale := none, description := none }

/-- Sample table whose name both sample rules match. -/
def c1Table : ParsedTable :=
  { study_id := "phs000001", dataset_id := "pht1",
    table_name := "enrollment_randomization", study_name := "Study",
    description := "", vars := [], variable_count := 0, file_path := "" }

/-- Sample rule with an unrecognized match_field. -/
def c10RuleU : Rule :=
  { match_field := "studyName", pattern := "t", concept := "u", domain := "U",
    rationale := none, description := none }

/-- Sample rule with a recognized match_field. -/
def c10RuleK : Rule :=
  { match_field := "tableName", pattern := "t", concept := "k", domain := "K",
    rationale := none, description := none }

/-- Sample table for the unknown-field rule example. -/
def c10Table : ParsedTable :=
  { study_id := "phs000003", dataset_id := "pht3", table_name := "t10",
    study_name := "Study", description := "d", vars := [],
    variable_count := 0, file_path := "" }

/-- Sample rule used as a default rule. -/
def c6Rule : Rule :=
  { match_field := "description", pattern := "blood", concept := "bp",
    domain := "Vitals", rationale := none, description := none }

/-- Sample table matched only by the default rule. -/
def c6Table : ParsedTable :=
  { study_id := "phs000002", dataset_id := "pht2", table_name := "t6",
    study_name := "Study", description := "blood pressure", vars := [],
    variable_count := 0, file_path := "" }

/-- Sample rule loader: no study rules, one default rule. -/
def c6RulesFor : String → List Rule × List Rule := fun _ => ([], [c6Rule])

/-- Sample attempt oracle: rate-limited on attempts 1 and 2, successful
from attempt 3 on. -/
def c2Resp : Nat → AgentOutcome Nat :=
  fun i => if i < 3 then .httpError 429 else .success 42 5 7

/-- Sample table with two variables for the concept-classification example. -/
def c3Table : ParsedTable :=
  { study_id := "phs000001", dataset_id := "pht4",
    table_name := "enrollment_randomization", study_name := "Study",
    description := "",
    vars := [{ name := "SMKCURR", description := "CURRENTLY SMOKE", id := "phv1" },
             { name := "SITDIAS1",
               description := "SITTING DIASTOLIC BLOOD PRESSURE AT BASELINE",
               id := "phv2" }],
    variable_count := 2, file_path := "" }

/-- Sample batch oracle answering one concept per input variable. -/
def c3BatchFn : List VarInfo → List LLMVariableConcept × Nat × Nat :=
  fun b =>
    (b.map (fun v =>
      { variable_name := v.name
        concept := if v.name == "SMKCURR" then "Current Smoker"
                   else "Diastolic Blood Pressure" }), 0, 0)

/-- Sample table named b (later in sort order, listed first). -/
def c8TableA : ParsedTable :=
  { study_id := "phs000005", dataset_id := "dA", table_name := "b",
    study_name := "Study", description := "x", vars := [],
    variable_count := 0, file_path := "" }

/-- Sample table named a (earlier in sort order, listed second). -/
def c8TableB : ParsedTable :=
  { study_id := "phs000005", dataset_id := "dB", table_name := "a",
    study_name := "Study", description := "", vars := [],
    variable_count := 0, file_path := "" }

/-- Sample per-table outcome: table b fails, every other table succeeds. -/
def c8Outcome : ParsedTable → Except String (List VarRecord × Nat × Nat) :=
  fun t =>
    if t.table_name == "b" then .error "boom"
    else .ok ([{ name := "v", description := "", concept := "C" }], 1, 2)

/-- Sample synonym groups whose flattening chains: B maps to A while A,
the canonical of the first group, is itself a synonym in the second. -/
def c4Groups : List ConceptGroup :=
  [{ canonical := "A", synonyms := ["B"] },
   { canonical := "C", synonyms := ["A"] }]

/-- Sample artifact with one variable labelled B. -/
def c4Data : StudyData :=
  { studyId := "phs000010", studyName := "Study",
    tables := [{ tableName := "t", datasetId := "d", description := none,
                 concepts := ["B"],
                 vars := [{ name := "v", description := "", concept := "B" }] }] }

/-- Sample chain-free mapping. -/
def c4wMap : List (String × String) := [("B", "A")]

/-- Sample artifact for the chain-free mapping. -/
def c4wData : StudyData :=
  { studyId := "phs000011", studyName := "Study",
    tables := [{ tableName := "t", datasetId := "d", description := none,
                 concepts := ["B"],
                 vars := [{ name := "v", description := "", concept := "B" }] }] }

/-- Sample normalization mapping for the rewrite-frame example. -/
def c9Map : List (String × String) := [("B", "A")]

/-- Sample variable whose concept is a mapping key. -/
def c9Var : VarRecord := { name := "v", description := "", concept := "B" }

/-- Sample table holding one variable whose concept is a mapping key. -/
def c9Tbl : TableData :=
  { tableName := "t", datasetId := "d", description := none, concepts := ["B"],
    vars := [{ name := "v", description := "", concept := "B" }] }

/-- The rewritten form of the sample table. -/
def c9Tbl2 : TableData :=
  { tableName := "t", datasetId := "d", description := none, concepts := ["A"],
    vars := [{ name := "v", description := "", concept := "A" }] }

/-- Sample artifact for the rewrite-frame example. -/
def c9Data : StudyData :=
  { studyId := "phs000012", studyName := "Study", tables := [c9Tbl] }

/-- Sample study table with three variables, none classified directly. -/
def c7Table : ParsedTable :=
  { study_id := "phs000013", dataset_id := "d1", table_name := "t",
    study_name := "Study", description := "", vars := [],
    variable_count := 3, file_path := "" }

/-- Sample classification covering one of the three variables. -/
def c7Class : Classification :=
  { study_id := "phs000013", dataset_id := "d1", table_name := "t",
    concept := "c", domain := "D", phase := 1, rule_source := "",
    variable_count := 1, vars := [] }

/-- Sample study table with four variables. -/
def c7wTable : ParsedTable :=
  { study_id := "phs000014", dataset_id := "d2", table_name := "t",
    study_name := "Study", description := "", vars := [],
    variable_count := 4, file_path := "" }

/-- Sample classification covering one of the four variables. -/
def c7wClass : Classification :=
  { study_id := "phs000014", dataset_id := "d2", table_name := "t",
    concept := "c", domain := "D", phase := 1, rule_source := "",
    variable_count := 1, vars := [] }

/-- The sort key of classify_study_concepts is transitive. -/
instance : IsTrans ParsedTable (fun a b => a.table_name ≤ b.table_name) :=
  ⟨fun _ _ _ => le_trans⟩

/-- The sort key of classify_study_concepts is total. -/
instance : IsTotal ParsedTable (fun a b => a.table_name ≤ b.table_name) :=
  ⟨fun _ _ => le_total _ _⟩

/-! ## Theorems -/

/-- match_table is the first-match search over the predicate ruleMatches. -/
theorem match_table_eq_find (reSearch : String → String → Bool)
    (table : ParsedTable) :
    ∀ rules : List Rule,
      match_table reSearch table rules = rules.find? (ruleMatches reSearch table)
  | [] => rfl
  | rule :: rest => by
    have ih := match_table_eq_find reSearch table rest
    by_cases h1 : rule.match_field = "tableName"
    · cases h2 : reSearch rule.pattern table.table_name <;>
        simp [match_table, List.find?_cons, ruleMatches, h1, h2, ih]
    · by_cases h3 : rule.match_field = "description"
      · cases h2 : reSearch rule.pattern table.description <;>
          simp [match_table, List.find?_cons, ruleMatches, h1, h3, h2, ih]
      · simp [match_table, List.find?_cons, ruleMatches, h1, h3, ih]

/-- find? returns the head of the first matching position. -/
theorem find?_first_of_matches {α : Type} (p : α → Bool) :
    ∀ (front : List α) (a : α) (back : List α),
      (∀ r ∈ front, p r = false) → p a = true →
      (front ++ a :: back).find? p = some a
  | [], a, back, _, ha => by simp [List.find?_cons, ha]
  | b :: bs, a, back, hfront, ha => by
    have hb : p b = false := hfront b (List.mem_cons_self b bs)
    simpa [List.find?_cons, hb] using
      find?_first_of_matches p bs a back
        (fun r hr => hfront r (List.mem_cons_of_mem b hr)) ha

/-- Elements falsifying the search predicate may be filtered out without
changing the result of find?. -/
theorem find?_filter_eq {α : Type} (p q : α → Bool)
    (h : ∀ a, q a = false → p a = false) :
    ∀ l : List α, l.find? p = (l.filter q).find? p
  | [] => rfl
  | a :: l => by
    have ih := find?_filter_eq p q h l
    cases hq : q a
    · have hp := h a hq
      simp [List.filter_cons, hq, List.find?_cons, hp, ih]
    · cases hp : p a <;> simp [List.filter_cons, hq, List.find?_cons, hp, ih]

/-- A rule with an unknown match field never satisfies ruleMatches. -/
theorem ruleMatches_false_of_unknown (reSearch : String → String → Bool)
    (table : ParsedTable) (rule : Rule) (h : knownField rule = false) :
    ruleMatches reSearch table rule = false := by
  revert h
  unfold knownField ruleMatches
  by_cases h1 : rule.match_field = "tableName" <;>
    by_cases h2 : rule.match_field = "description" <;> simp [h1, h2]

/-- A matching rule has a known match field. -/
theorem ruleMatches_known (reSearch : String → String → Bool)
    (table : ParsedTable) (rule : Rule)
    (h : ruleMatches reSearch table rule = true) : knownField rule = true := by
  cases hk : knownField rule
  · rw [ruleMatches_false_of_unknown reSearch table rule hk] at h
    exact h
  · rfl

/-- C1: for every table and ordered rule list, match_table returns the
first rule in list order whose match_field selects the table name or
description of the table and whose pattern search succeeds on that value
(the external re.search being the reSearch argument); it returns none when
no rule matches; and when the list splits as front ++ a :: back with no
rule of front matching and a matching, the earlier matching rule a is
returned — in particular, of two matching rules the earlier always wins. -/
theorem c1_match_table_first_match (reSearch : String → String → Bool)
    (table : ParsedTable) (rules : List Rule) :
    match_table reSearch table rules = rules.find? (ruleMatches reSearch table)
    ∧ ((∀ r ∈ rules, ruleMatches reSearch table r = false) →
        match_table reSearch table rules = none)
    ∧ (∀ (front : List Rule) (a : Rule) (back : List Rule),
        rules = front ++ a :: back →
        (∀ r ∈ front, ruleMatches reSearch table r = false) →
        ruleMatches reSearch table a = true →
        match_table reSearch table rules = some a) := by
  refine ⟨match_table_eq_find reSearch table rules, ?_, ?_⟩
  · intro h
    rw [match_table_eq_find]
    exact List.find?_eq_none.mpr fun r hr => by simp [h r hr]
  · intro front a back hEq hfront ha
    subst hEq
    rw [match_table_eq_find]
    exact find?_first_of_matches _ front a back hfront ha

/-- Witness for C1: both sample rules match the sample table, and the
earlier rule is returned. -/
theorem c1_match_table_first_match_witness :
    ruleMatches litSearch c1Table c1RuleA = true
    ∧ ruleMatches litSearch c1Table c1RuleB = true
    ∧ match_table litSearch c1Table [c1RuleA, c1RuleB] = some c1RuleA := by
  refine ⟨by decide, by decide, ?_⟩
  exact (c1_match_table_first_match litSearch c1Table [c1RuleA, c1RuleB]).2.2
    [] c1RuleA [c1RuleB] rfl (by simp) (by decide)

/-- C10: a rule whose match_field is neither tableName nor description is
silently skipped: match_table is unchanged after removing all such rules,
and any rule returned has a known field. -/
theorem c10_match_table_skips_unknown_fields (reSearch : String → String → Bool)
    (table : ParsedTable) (rules : List Rule) :
    match_table reSearch table rules
      = match_table reSearch table (rules.filter knownField)
    ∧ (∀ r, match_table reSearch table rules = some r → knownField r = true) := by
  constructor
  · rw [match_table_eq_find, match_table_eq_find]
    exact find?_filter_eq _ _
      (fun r h => ruleMatches_false_of_unknown reSearch table r h) rules
  · intro r hr
    rw [match_table_eq_find] at hr
    exact ruleMatches_known reSearch table r (List.find?_some hr)

/-- Witness for C10: dropping the unknown-field rule changes nothing. -/
theorem c10_match_table_skips_unknown_fields_witness :
    match_table litSearch c10Table [c10RuleU, c10RuleK]
      = match_table litSearch c10Table [c10RuleK] := by
  have h :=
    (c10_match_table_skips_unknown_fields litSearch c10Table [c10RuleU, c10RuleK]).1
  have hf : [c10RuleU, c10RuleK].filter knownField = [c10RuleK] := by decide
  rw [hf] at h
  exact h

/-- Any classification that classifyOne produces for a member table is in
the output of classify_tables (run without a study filter). -/
theorem mem_classify_tables_of_classifyOne (reSearch : String → String → Bool)
    (rulesFor : String → List Rule × List Rule) (tables : List ParsedTable)
    (t : ParsedTable) (c : Classification) (ht : t ∈ tables)
    (hc : classifyOne reSearch t.study_id (rulesFor t.study_id).1
            (rulesFor t.study_id).2 t = some c) :
    c ∈ classify_tables reSearch rulesFor tables none := by
  unfold classify_tables
  refine List.mem_flatMap.mpr ⟨t.study_id, ?_, ?_⟩
  · unfold sortedStudyIds
    rw [(List.perm_insertionSort _ _).mem_iff, List.mem_dedup]
    exact List.mem_map_of_mem _ ht
  · exact List.mem_filterMap.mpr ⟨t, List.mem_filter.mpr ⟨ht, by simp⟩, hc⟩

/-- C6: classify_tables tries the study rules first and the default rules
only on no study-rule match; a study-rule match is tagged with the study
id and a default-rule match with the _default source, each together with
the matching field and pattern. -/
theorem c6_classify_tables_source_priority (reSearch : String → String → Bool)
    (rulesFor : String → List Rule × List Rule) (tables : List ParsedTable)
    (t : ParsedTable) (ht : t ∈ tables) :
    (∀ r : Rule, match_table reSearch t (rulesFor t.study_id).1 = some r →
      mkClassification t.study_id t r t.study_id
          ∈ classify_tables reSearch rulesFor tables none
        ∧ (mkClassification t.study_id t r t.study_id).rule_source
            = t.study_id ++ ":" ++ r.match_field ++ ":" ++ r.pattern)
    ∧ (match_table reSearch t (rulesFor t.study_id).1 = none →
       ∀ r : Rule, match_table reSearch t (rulesFor t.study_id).2 = some r →
        mkClassification t.study_id t r "_default"
            ∈ classify_tables reSearch rulesFor tables none
          ∧ (mkClassification t.study_id t r "_default").rule_source
              = "_default" ++ ":" ++ r.match_field ++ ":" ++ r.pattern) := by
  constructor
  · intro r hr
    refine ⟨mem_classify_tables_of_classifyOne reSearch rulesFor tables t _ ht ?_, rfl⟩
    simp [classifyOne, hr]
  · intro hnone r hr
    refine ⟨mem_classify_tables_of_classifyOne reSearch rulesFor tables t _ ht ?_, rfl⟩
    simp [classifyOne, hnone, hr]

/-- Witness for C6: the sample table is unmatched by the (empty) study
rules and matched by the default rule, and its provenance carries the
_default tag with the matching field and pattern. -/
theorem c6_classify_tables_source_priority_witness :
    mkClassification c6Table.study_id c6Table c6Rule "_default"
        ∈ classify_tables litSearch c6RulesFor [c6Table] none
      ∧ (mkClassification c6Table.study_id c6Table c6Rule "_default").rule_source
          = "_default:description:blood" := by
  have h :=
    (c6_classify_tables_source_priority litSearch c6RulesFor [c6Table] c6Table
      (by simp)).2 rfl c6Rule (by decide)
  exact ⟨h.1, by decide⟩

/-- Unfolding of the retry loop at a successful attempt. -/
theorem classifyBatchGo_success_eq {α : Type} (resp : Nat → AgentOutcome α)
    (attempt fuel : Nat) (v : α) (ti tout : Nat)
    (h : resp attempt = .success v ti tout) :
    classifyBatchGo resp attempt fuel = (.ok (v, ti, tout), []) := by
  rw [classifyBatchGo.eq_def]
  dsimp only
  rw [h]

/-- Unfolding of the retry loop at a non-HTTP exception. -/
theorem classifyBatchGo_failure_eq {α : Type} (resp : Nat → AgentOutcome α)
    (attempt fuel : Nat) (h : resp attempt = .failure) :
    classifyBatchGo resp attempt fuel = (.error .other, []) := by
  rw [classifyBatchGo.eq_def]
  dsimp only
  rw [h]

/-- Unfolding of the retry loop at an HTTP error with no fuel left. -/
theorem classifyBatchGo_http_zero_eq {α : Type} (resp : Nat → AgentOutcome α)
    (attempt s : Nat) (h : resp attempt = .httpError s) :
    classifyBatchGo resp attempt 0 = (.error (.http s), []) := by
  rw [classifyBatchGo.eq_def]
  dsimp only
  rw [h]

/-- Unfolding of the retry loop at an HTTP error with fuel left. -/
theorem classifyBatchGo_http_succ_eq {α : Type} (resp : Nat → AgentOutcome α)
    (attempt fuel s : Nat) (h : resp attempt = .httpError s) :
    classifyBatchGo resp attempt (fuel + 1)
      = if s = 429 then
          ((classifyBatchGo resp (attempt + 1) fuel).1,
            2 ^ attempt :: (classifyBatchGo resp (attempt + 1) fuel).2)
        else (.error (.http s), []) := by
  rw [classifyBatchGo.eq_def]
  dsimp only
  rw [h]

/-- Behavior of the retry loop on N consecutive rate limits followed by a
success within the allowed fuel: the success value is returned and the
backoff sleeps double per attempt. -/
theorem classifyBatchGo_success {α : Type} (resp : Nat → AgentOutcome α)
    (v : α) (ti tout : Nat) :
    ∀ (N attempt fuel : Nat), N ≤ fuel →
      (∀ i, attempt ≤ i → i < attempt + N → resp i = .httpError 429) →
      resp (attempt + N) = .success v ti tout →
      classifyBatchGo resp attempt fuel
        = (.ok (v, ti, tout), (List.range N).map (fun k => 2 ^ (attempt + k)))
  | 0, attempt, fuel, _, _, hs => by
    have hs0 : resp attempt = .success v ti tout := by simpa using hs
    simp [classifyBatchGo_success_eq resp attempt fuel v ti tout hs0]
  | N + 1, attempt, fuel, hN, h429, hs => by
    obtain ⟨f, rfl⟩ : ∃ f, fuel = f + 1 := ⟨fuel - 1, by omega⟩
    have hA : resp attempt = .httpError 429 := h429 attempt le_rfl (by omega)
    have hs2 : resp (attempt + 1 + N) = .success v ti tout := by
      rwa [show attempt + 1 + N = attempt + (N + 1) from by omega]
    have ih := classifyBatchGo_success resp v ti tout N (attempt + 1) f
      (by omega) (fun i h1 h2 => h429 i (by omega) (by omega)) hs2
    rw [classifyBatchGo_http_succ_eq resp attempt f 429 hA, if_pos rfl, ih]
    simp only [List.range_succ_eq_map, List.map_cons, List.map_map,
      Prod.mk.injEq, List.cons.injEq]
    refine ⟨trivial, by simp, ?_⟩
    refine List.map_congr_left fun k _ => ?_
    simp [Function.comp, show attempt + (k + 1) = attempt + 1 + k from by omega]

/-- Behavior of the retry loop when every allowed attempt is rate
limited: the 429 error propagates after fuel backoff sleeps. -/
theorem classifyBatchGo_exhaust {α : Type} (resp : Nat → AgentOutcome α) :
    ∀ (fuel attempt : Nat),
      (∀ i, attempt ≤ i → i ≤ attempt + fuel → resp i = .httpError 429) →
      classifyBatchGo resp attempt fuel
        = (.error (.http 429), (List.range fuel).map (fun k => 2 ^ (attempt + k)))
  | 0, attempt, h => by
    simp [classifyBatchGo_http_zero_eq resp attempt 429 (h attempt le_rfl (by omega))]
  | fuel + 1, attempt, h => by
    have hA : resp attempt = .httpError 429 := h attempt le_rfl (by omega)
    have ih := classifyBatchGo_exhaust resp fuel (attempt + 1)
      (fun i h1 h2 => h i (by omega) (by omega))
    rw [classifyBatchGo_http_succ_eq resp attempt fuel 429 hA, if_pos rfl, ih]
    simp only [List.range_succ_eq_map, List.map_cons, List.map_map,
      Prod.mk.injEq, List.cons.injEq]
    refine ⟨trivial, by simp, ?_⟩
    refine List.map_congr_left fun k _ => ?_
    simp [Function.comp, show attempt + (k + 1) = attempt + 1 + k from by omega]

/-- A non-rate-limit HTTP error is re-raised at once, with no sleep. -/
theorem classifyBatchGo_immediate {α : Type} (resp : Nat → AgentOutcome α)
    (attempt fuel s : Nat) (hs : resp attempt = .httpError s) (hne : s ≠ 429) :
    classifyBatchGo resp attempt fuel = (.error (.http s), []) := by
  cases fuel with
  | zero => exact classifyBatchGo_http_zero_eq resp attempt s hs
  | succ f => rw [classifyBatchGo_http_succ_eq resp attempt f s hs, if_neg hne]

/-- C2: classify_batch retries a 429 rate-limit error with exponential
backoff, the delay 2 to the power of the attempt number doubling per
attempt, up to MAX_RETRIES attempts.  With N < MAX_RETRIES consecutive
rate limits followed by a success, exactly the one successful result is
returned; with MAX_RETRIES consecutive rate limits the rate-limit error
itself is raised; a non-429 HTTP error or any other exception is raised
immediately without retry. -/
theorem c2_classify_batch_retry {α : Type} (resp : Nat → AgentOutcome α) :
    (∀ (N : Nat) (v : α) (ti tout : Nat), N < MAX_RETRIES →
      (∀ i, 1 ≤ i → i ≤ N → resp i = .httpError 429) →
      resp (N + 1) = .success v ti tout →
      classify_batch resp
        = (.ok (v, ti, tout), (List.range N).map (fun k => 2 ^ (1 + k))))
    ∧ ((∀ i, 1 ≤ i → i ≤ MAX_RETRIES → resp i = .httpError 429) →
      classify_batch resp
        = (.error (.http 429),
            (List.range (MAX_RETRIES - 1)).map (fun k => 2 ^ (1 + k))))
    ∧ (∀ s : Nat, s ≠ 429 → resp 1 = .httpError s →
      classify_batch resp = (.error (.http s), []))
    ∧ (resp 1 = .failure → classify_batch resp = (.error .other, [])) := by
  refine ⟨?_, ?_, ?_, ?_⟩
  · intro N v ti tout hN h429 hs
    unfold classify_batch
    exact classifyBatchGo_success resp v ti tout N 1 (MAX_RETRIES - 1)
      (by unfold MAX_RETRIES at hN ⊢; omega)
      (fun i h1 h2 => h429 i h1 (by omega))
      (by rwa [Nat.add_comm 1 N])
  · intro h429
    unfold classify_batch
    exact classifyBatchGo_exhaust resp (MAX_RETRIES - 1) 1
      (fun i h1 h2 => h429 i h1 (by unfold MAX_RETRIES at h2 ⊢; omega))
  · intro s hne hs
    exact classifyBatchGo_immediate resp 1 (MAX_RETRIES - 1) s hs hne
  · intro hs
    exact classifyBatchGo_failure_eq resp 1 (MAX_RETRIES - 1) hs

/-- Witness for C2: two rate limits then a success give the one success
with backoff sleeps 2 and 4. -/
theorem c2_classify_batch_retry_witness :
    classify_batch c2Resp = (.ok (42, 5, 7), [2, 4]) := by
  have h := (c2_classify_batch_retry c2Resp).1 2 42 5 7 (by decide)
    (fun i h1 h2 => by interval_cases i <;> rfl) rfl
  simpa using h

/-- The chunks of a list concatenate back to the list (with fuel at least
the list length). -/
theorem chunkListAux_flatten {α : Type} (K : Nat) :
    ∀ (fuel : Nat) (l : List α), l.length ≤ fuel →
      (chunkListAux K fuel l).flatten = l
  | fuel, [], _ => by cases fuel <;> rfl
  | 0, x :: xs, h => by simp at h
  | fuel + 1, x :: xs, h => by
    simp only [chunkListAux, List.flatten_cons]
    rw [chunkListAux_flatten K fuel (xs.drop (K - 1))
      (by simp only [List.length_drop]; simp at h; omega)]
    simp

/-- The chunks of a list concatenate back to the list. -/
theorem chunkList_flatten {α : Type} (K : Nat) (l : List α) :
    (chunkList K l).flatten = l :=
  chunkListAux_flatten K l.length l le_rfl

/-- First component of the batch-accumulating fold of
classify_table_concepts: the concatenation of the per-batch outputs. -/
theorem classifyBatchAcc_fst
    (batchFn : List VarInfo → List LLMVariableConcept × Nat × Nat) :
    ∀ (bs : List (List VarInfo)) (acc : List LLMVariableConcept × Nat × Nat),
      (bs.foldl
        (fun (acc : List LLMVariableConcept × Nat × Nat) b =>
          let r := batchFn b
          (acc.1 ++ r.1, acc.2.1 + r.2.1, acc.2.2 + r.2.2))
        acc).1
        = acc.1 ++ (bs.map (fun b => (batchFn b).1)).flatten
  | [], acc => by simp
  | b :: bs, acc => by
    simp only [List.foldl_cons, List.map_cons, List.flatten_cons]
    rw [classifyBatchAcc_fst batchFn bs]
    simp [List.append_assoc]

/-- The dedup loop keeps exactly the input names when they are distinct
and disjoint from the seen set. -/
theorem dedupAssign_names (descOf : String → String) :
    ∀ (L : List LLMVariableConcept) (seen : List String),
      (L.map (·.variable_name)).Nodup →
      (∀ x ∈ L, x.variable_name ∉ seen) →
      (dedupAssign descOf L seen).map (·.name) = L.map (·.variable_name)
  | [], _, _, _ => rfl
  | vc :: rest, seen, hnd, hseen => by
    have hv : vc.variable_name ∉ seen := hseen vc (List.mem_cons_self _ _)
    have hna : vc.variable_name ∉ rest.map (·.variable_name) :=
      (List.nodup_cons.mp (by simpa using hnd)).1
    have hnd2 : (rest.map (·.variable_name)).Nodup :=
      (List.nodup_cons.mp (by simpa using hnd)).2
    have hseen2 : ∀ x ∈ rest, x.variable_name ∉ vc.variable_name :: seen := by
      intro x hx
      simp only [List.mem_cons, not_or]
      exact ⟨fun h => hna (h ▸ List.mem_map_of_mem (·.variable_name) hx),
        hseen x (List.mem_cons_of_mem vc hx)⟩
    rw [dedupAssign, if_neg hv]
    simp [dedupAssign_names descOf rest (vc.variable_name :: seen) hnd2 hseen2]

/-- The dedup loop keeps, for each name, the record of the first
occurrence of that name. -/
theorem dedupAssign_find (descOf : String → String) (n : String) :
    ∀ (L : List LLMVariableConcept) (seen : List String), n ∉ seen →
      (dedupAssign descOf L seen).find? (fun x => x.name == n)
        = (L.find? (fun x => x.variable_name == n)).map
            (fun vc =>
              { name := vc.variable_name
                description := descOf vc.variable_name
                concept := vc.concept })
  | [], _, _ => rfl
  | vc :: rest, seen, hn => by
    by_cases hv : vc.variable_name ∈ seen
    · have hne : vc.variable_name ≠ n := fun h => hn (h ▸ hv)
      rw [dedupAssign, if_pos hv, dedupAssign_find descOf n rest seen hn]
      simp [List.find?_cons, hne]
    · rw [dedupAssign, if_neg hv]
      by_cases he : vc.variable_name = n
      · simp [List.find?_cons, he]
      · have hn2 : n ∉ vc.variable_name :: seen := by
          simp only [List.mem_cons, not_or]
          exact ⟨fun h => he h.symm, hn⟩
        rw [List.find?_cons, List.find?_cons]
        have hb : (vc.variable_name == n) = false := by simp [he]
        simp only [hb]
        exact dedupAssign_find descOf n rest (vc.variable_name :: seen) hn2

/-- C3: when the variable names of a table are distinct and every batch
call answers exactly one entry per variable of the batch, the result of
classify_table_concepts has exactly the input variable names, in order —
one assignment per distinct name, no omissions, no duplicates, for every
variable count including 0, the batch size, and the batch size plus one;
and the dedup step keeps, for each name, the concept of the first
occurrence whenever a name is re-emitted. -/
theorem c3_classify_table_concepts_complete
    (batchFn : List VarInfo → List LLMVariableConcept × Nat × Nat)
    (table : ParsedTable)
    (huniq : (table.vars.map (·.name)).Nodup)
    (hbatch : ∀ b, (batchFn b).1.map (·.variable_name) = b.map (·.name)) :
    ((classify_table_concepts batchFn table).1.map (·.name)
        = table.vars.map (·.name))
    ∧ (∀ (L : List LLMVariableConcept) (descOf : String → String) (n : String)
        (vc : LLMVariableConcept),
        L.find? (fun x => x.variable_name == n) = some vc →
        (dedupAssign descOf L []).find? (fun x => x.name == n)
          = some { name := vc.variable_name
                   description := descOf vc.variable_name
                   concept := vc.concept }) := by
  constructor
  · unfold classify_table_concepts
    have hacc := classifyBatchAcc_fst batchFn
      (chunkList VARS_PER_BATCH table.vars) ([], 0, 0)
    simp only [List.nil_append] at hacc
    simp only [hacc]
    have hnames :
        (((chunkList VARS_PER_BATCH table.vars).map
            (fun b => (batchFn b).1)).flatten).map (·.variable_name)
          = table.vars.map (·.name) := by
      rw [List.map_flatten, List.map_map]
      have hcongr : ((chunkList VARS_PER_BATCH table.vars).map
          ((fun l : List LLMVariableConcept => l.map (·.variable_name))
            ∘ fun b => (batchFn b).1))
          = (chunkList VARS_PER_BATCH table.vars).map (fun b => b.map (·.name)) :=
        List.map_congr_left fun b _ => hbatch b
      rw [hcongr, ← List.map_flatten, chunkList_flatten]
    rw [dedupAssign_names _ _ [] (by rw [hnames]; exact huniq) (by simp),
      hnames]
  · intro L descOf n vc hfind
    rw [dedupAssign_find descOf n L [] (by simp), hfind]
    rfl

/-- Witness for C3: the two sample variables each receive one assignment,
names preserved in order, concepts as expected. -/
theorem c3_classify_table_concepts_complete_witness :
    (classify_table_concepts c3BatchFn c3Table).1.map (·.name)
        = ["SMKCURR", "SITDIAS1"]
    ∧ (classify_table_concepts c3BatchFn c3Table).1.map (·.concept)
        = ["Current Smoker", "Diastolic Blood Pressure"] := by
  have h := (c3_classify_table_concepts_complete c3BatchFn c3Table (by decide)
    (fun b => by simp [c3BatchFn, List.map_map, Function.comp])).1
  exact ⟨by simpa [c3Table] using h, by decide⟩

/-- The collection loop counts: one table entry per ok item, one counted
error per error item. -/
theorem collectTables_counts :
    ∀ rs : List (ParsedTable × Except String (List VarRecord × Nat × Nat)),
      (collectTables rs).1.length = rs.countP (fun p => p.2.isOk)
      ∧ (collectTables rs).2.1 = rs.countP (fun p => !p.2.isOk)
  | [] => by simp [collectTables]
  | (t, .error e) :: rs => by
    have ih := collectTables_counts rs
    simp [collectTables, List.countP_cons, Except.isOk, Except.toBool,
      ih.1, ih.2]
  | (t, .ok d) :: rs => by
    have ih := collectTables_counts rs
    simp [collectTables, List.countP_cons, Except.isOk, Except.toBool,
      ih.1, ih.2]

/-- C5: within the fan-out of one study, per-table errors are converted at
the gather barrier into counted failures: the study result holds one table
entry per successful table, the error count equals the number of failed
tables, and classify_study_concepts is a total function — no exception
escapes it and sibling successes are never lost. -/
theorem c5_classify_study_concepts_isolation
    (outcome : ParsedTable → Except String (List VarRecord × Nat × Nat))
    (study_id : String) (tables : List ParsedTable) :
    ((classify_study_concepts outcome study_id tables).1.tables.length
        = tables.countP (fun t => (outcome t).isOk))
    ∧ ((classify_study_concepts outcome study_id tables).2.1
        = tables.countP (fun t => !(outcome t).isOk)) := by
  have h := collectTables_counts
    ((List.insertionSort (fun a b => a.table_name ≤ b.table_name) tables).map
      (fun t => (t, outcome t)))
  have hperm :=
    List.perm_insertionSort (fun a b => a.table_name ≤ b.table_name) tables
  constructor
  · show (collectTables _).1.length = _
    rw [h.1, List.countP_map]
    exact hperm.countP_eq _
  · show (collectTables _).2.1 = _
    rw [h.2, List.countP_map]
    exact hperm.countP_eq _

/-- The names of the collected table entries form a sublist of the names
of the gathered items, in order. -/
theorem collectTables_names_sublist :
    ∀ rs : List (ParsedTable × Except String (List VarRecord × Nat × Nat)),
      ((collectTables rs).1.map (·.tableName)).Sublist
        (rs.map (fun p => p.1.table_name))
  | [] => by simp [collectTables]
  | (t, .error e) :: rs =>
    (collectTables_names_sublist rs).cons _
  | (t, .ok d) :: rs =>
    List.cons_sublist_cons.mpr (collectTables_names_sublist rs)

/-- C8: the tables list of the per-study artifact is in ascending order
of table name — the fan-out is issued over name-sorted tables and the
gather barrier delivers results in input order regardless of completion
order — and the result is a function of the per-table results: two runs
whose outcomes agree on every table of the study produce identical
artifacts. -/
theorem c8_classify_study_concepts_sorted_deterministic
    (outcome : ParsedTable → Except String (List VarRecord × Nat × Nat))
    (study_id : String) (tables : List ParsedTable) :
    ((classify_study_concepts outcome study_id tables).1.tables.map
        (·.tableName)).Sorted (· ≤ ·)
    ∧ (∀ outcome2 : ParsedTable → Except String (List VarRecord × Nat × Nat),
        (∀ t ∈ tables, outcome t = outcome2 t) →
        classify_study_concepts outcome study_id tables
          = classify_study_concepts outcome2 study_id tables) := by
  constructor
  · have hsort := List.sorted_insertionSort
      (fun a b : ParsedTable => a.table_name ≤ b.table_name) tables
    have h1 : ((List.insertionSort
        (fun a b => a.table_name ≤ b.table_name) tables).map
          (·.table_name)).Pairwise (· ≤ ·) := by
      rw [List.pairwise_map]
      exact hsort
    have h2 : ((List.insertionSort
          (fun a b => a.table_name ≤ b.table_name) tables).map
            (fun t => (t, outcome t))).map (fun p => p.1.table_name)
        = (List.insertionSort
            (fun a b => a.table_name ≤ b.table_name) tables).map
              (·.table_name) := by
      rw [List.map_map]
      rfl
    show (((collectTables _).1.map (·.tableName)).Sorted (· ≤ ·))
    exact List.Pairwise.sublist (collectTables_names_sublist _) (h2 ▸ h1)
  · intro outcome2 ho
    dsimp only [classify_study_concepts]
    have he : (List.insertionSort
          (fun a b => a.table_name ≤ b.table_name) tables).map
            (fun t => (t, outcome t))
        = (List.insertionSort
            (fun a b => a.table_name ≤ b.table_name) tables).map
              (fun t => (t, outcome2 t)) :=
      List.map_congr_left fun t ht => by
        rw [ho t ((List.perm_insertionSort _ _).mem_iff.mp ht)]
    rw [he]

/-- Witness for C8: with table b failing and table a succeeding, the
artifact lists the surviving table names in ascending order, and equal
per-table outcomes give equal results. -/
theorem c8_classify_study_concepts_sorted_deterministic_witness :
    ((classify_study_concepts c8Outcome "phs000005"
        [c8TableA, c8TableB]).1.tables.map (·.tableName)).Sorted (· ≤ ·)
    ∧ classify_study_concepts c8Outcome "phs000005" [c8TableA, c8TableB]
        = classify_study_concepts c8Outcome "phs000005" [c8TableA, c8TableB] := by
  have h := c8_classify_study_concepts_sorted_deterministic c8Outcome
    "phs000005" [c8TableA, c8TableB]
  exact ⟨h.1, h.2 c8Outcome (fun t _ => rfl)⟩

/-- The variable rewrite loop: first components are the per-variable
rewrites, the flag records whether any concept was a mapping key. -/
theorem applyVars_eq (m : List (String × String)) :
    ∀ vs : List VarRecord,
      applyVars m vs
        = (vs.map (fun v => (applyVar m v).1),
            vs.any (fun v => (mapGet m v.concept).isSome))
  | [] => rfl
  | v :: vs => by
    have ih := applyVars_eq m vs
    have hsnd : (applyVar m v).2 = (mapGet m v.concept).isSome := by
      unfold applyVar
      cases mapGet m v.concept <;> simp
    simp [applyVars, ih, List.any_cons, hsnd]

/-- An unmapped variable is returned unchanged. -/
theorem applyVar_unmapped (m : List (String × String)) (v : VarRecord)
    (h : mapGet m v.concept = none) : applyVar m v = (v, false) := by
  simp [applyVar, h]

/-- Under a chain-free mapping, the rewritten variable is unmapped. -/
theorem applyVar_stable (m : List (String × String))
    (h : ∀ k v, mapGet m k = some v → mapGet m v = none) (v : VarRecord) :
    mapGet m ((applyVar m v).1).concept = none := by
  unfold applyVar
  cases hm : mapGet m v.concept with
  | none => simpa using hm
  | some c => simpa using h _ _ hm

/-- A table of unmapped variables passes applyTable unchanged. -/
theorem applyTable_id (m : List (String × String)) (t : TableData)
    (h : ∀ v ∈ t.vars, mapGet m v.concept = none) :
    applyTable m false t = (t, false) := by
  unfold applyTable
  rw [applyVars_eq]
  have hmap : t.vars.map (fun v => (applyVar m v).1) = t.vars := by
    have hcongr : t.vars.map (fun v => (applyVar m v).1)
        = t.vars.map (fun v => v) :=
      List.map_congr_left fun v hv => by simp [applyVar, h v hv]
    simpa using hcongr
  have hany : t.vars.any (fun v => (mapGet m v.concept).isSome) = false := by
    simp only [List.any_eq_false]
    intro v hv
    simp [h v hv]
  simp [hmap, hany]

/-- An artifact of unmapped variables passes applyTables unchanged. -/
theorem applyTables_id (m : List (String × String)) :
    ∀ ts : List TableData,
      (∀ t ∈ ts, ∀ v ∈ t.vars, mapGet m v.concept = none) →
      applyTables m false ts = (ts, false)
  | [], _ => rfl
  | t :: ts, h => by
    have h1 := applyTable_id m t (h t (List.mem_cons_self _ _))
    have ih := applyTables_id m ts (fun x hx => h x (List.mem_cons_of_mem _ hx))
    simp [applyTables, h1, ih]

/-- Every table of the applyTables output carries the rewritten variables
of a corresponding input table. -/
theorem applyTables_vars (m : List (String × String)) :
    ∀ (c : Bool) (ts : List TableData), ∀ t2 ∈ (applyTables m c ts).1,
      ∃ t ∈ ts, t2.vars = t.vars.map (fun v => (applyVar m v).1)
  | c, [], t2, h => by simp [applyTables] at h
  | c, t :: ts, t2, h => by
    simp only [applyTables, List.mem_cons] at h
    rcases h with rfl | h
    · refine ⟨t, List.mem_cons_self _ _, ?_⟩
      unfold applyTable
      rw [applyVars_eq]
      dsimp only
      split <;> simp
    · obtain ⟨t0, ht0, hv⟩ := applyTables_vars m (applyTable m c t).2 ts t2 h
      exact ⟨t0, List.mem_cons_of_mem _ ht0, hv⟩

/-- C4 counterexample: flattening the sample groups maps B to A and A to
C — a key maps to a value that is itself a key — and applying the mapping
twice to the sample artifact differs from applying it once. -/
theorem c4_normalize_idempotent_counterexample :
    (applyStudy (buildMapping c4Groups)
        ((applyStudy (buildMapping c4Groups) c4Data).1)).1
      ≠ (applyStudy (buildMapping c4Groups) c4Data).1
    ∧ mapGet (buildMapping c4Groups) "B" = some "A"
    ∧ mapGet (buildMapping c4Groups) "A" = some "C" := by
  exact ⟨by decide, by decide, by decide⟩

/-- C4 (amended): the rewrite pass of normalize_concepts is idempotent on
every artifact provided the mapping is chain-free — no key maps to a value
that is itself a key.  buildMapping does not guarantee that property: it
only skips a synonym equal to its own canonical inside one group, so a
canonical of one group re-appearing as a synonym of another yields a
chained, non-idempotent mapping. -/
theorem c4_normalize_idempotent_amended (m : List (String × String))
    (d : StudyData)
    (h : ∀ k v, mapGet m k = some v → mapGet m v = none) :
    (applyStudy m (applyStudy m d).1).1 = (applyStudy m d).1 := by
  have hvars : ∀ t2 ∈ (applyTables m false d.tables).1, ∀ v2 ∈ t2.vars,
      mapGet m v2.concept = none := by
    intro t2 ht2 v2 hv2
    obtain ⟨t, ht, hvt⟩ := applyTables_vars m false d.tables t2 ht2
    rw [hvt] at hv2
    obtain ⟨v, hv, rfl⟩ := List.mem_map.mp hv2
    exact applyVar_stable m h v
  unfold applyStudy
  rw [applyTables_id m _ hvars]

/-- Witness for the amended C4: the chain-free sample mapping is
idempotent on the sample artifact. -/
theorem c4_normalize_idempotent_amended_witness :
    (applyStudy c4wMap (applyStudy c4wMap c4wData).1).1
      = (applyStudy c4wMap c4wData).1 := by
  refine c4_normalize_idempotent_amended c4wMap c4wData ?_
  intro k v hkv
  rcases eq_or_ne ("B" : String) k with hk | hk
  · subst hk
    have h2 : mapGet c4wMap "B" = some "A" := rfl
    rw [h2] at hkv
    have hv : v = "A" := (Option.some.inj hkv).symm
    subst hv
    rfl
  · have hb : (("B" : String) == k) = false := by
      simpa using hk
    simp [c4wMap, mapGet, List.find?, hb] at hkv

/-- The changed flag of applyTables: the incoming flag or some variable
of some table has a concept that is a mapping key. -/
theorem applyTables_changed (m : List (String × String)) :
    ∀ (c : Bool) (ts : List TableData),
      (applyTables m c ts).2
        = (c || ts.any (fun t =>
            t.vars.any (fun v => (mapGet m v.concept).isSome)))
  | c, [] => by simp [applyTables]
  | c, t :: ts => by
    have h2 : (applyTable m c t).2
        = (c || t.vars.any (fun v => (mapGet m v.concept).isSome)) := by
      unfold applyTable
      rw [applyVars_eq]
      dsimp only
      split <;> rfl
    have ih := applyTables_changed m (applyTable m c t).2 ts
    rw [h2] at ih
    simp [applyTables, ih, h2, List.any_cons, Bool.or_assoc]

/-- The changed flag of the whole rewrite pass. -/
theorem applyStudy_changed (m : List (String × String)) (d : StudyData) :
    (applyStudy m d).2
      = d.tables.any (fun t =>
          t.vars.any (fun v => (mapGet m v.concept).isSome)) := by
  unfold applyStudy
  rw [applyTables_changed]
  simp

/-- The rewrite decision is the changed flag. -/
theorem rewriteStudy_isSome (m : List (String × String)) (d : StudyData) :
    (rewriteStudy m d).isSome = (applyStudy m d).2 := by
  unfold rewriteStudy
  cases h : (applyStudy m d).2 <;> simp [h]

/-- A changed table of the rewrite pass has its concepts list rebuilt as
the sorted set of its rewritten variable concepts. -/
theorem applyTables_concepts_of_changed (m : List (String × String)) :
    ∀ (c : Bool) (ts : List TableData),
      ∀ p ∈ ts.zip (applyTables m c ts).1,
        (∃ v ∈ p.1.vars, (mapGet m v.concept).isSome) →
        p.2.concepts = sortedDedup (p.2.vars.map (·.concept))
  | c, [], p, hp, _ => by simp [applyTables] at hp
  | c, t :: ts, p, hp, hex => by
    simp only [applyTables, List.zip_cons_cons, List.mem_cons] at hp
    rcases hp with rfl | hp
    · have hany : t.vars.any (fun v => (mapGet m v.concept).isSome) = true := by
        simp only [List.any_eq_true]
        obtain ⟨v, hv, hs⟩ := hex
        exact ⟨v, hv, hs⟩
      unfold applyTable
      rw [applyVars_eq]
      simp [hany]
    · exact applyTables_concepts_of_changed m (applyTable m c t).2 ts p hp hex

/-- C9: a persisted artifact is rewritten to storage exactly when some
variable concept in it is a key of the normalization mapping; an artifact
with no such variable is returned unchanged and not written; and every
changed table has its concepts list recomputed as the sorted distinct set
of its (possibly remapped) variable concepts. -/
theorem c9_normalize_rewrite_frame (m : List (String × String))
    (d : StudyData) :
    ((rewriteStudy m d).isSome
        ↔ ∃ t ∈ d.tables, ∃ v ∈ t.vars, (mapGet m v.concept).isSome)
    ∧ ((∀ t ∈ d.tables, ∀ v ∈ t.vars, mapGet m v.concept = none) →
        rewriteStudy m d = none ∧ (applyStudy m d).1 = d)
    ∧ (∀ p ∈ d.tables.zip (applyStudy m d).1.tables,
        (∃ v ∈ p.1.vars, (mapGet m v.concept).isSome) →
        p.2.concepts = sortedDedup (p.2.vars.map (·.concept))) := by
  refine ⟨?_, ?_, ?_⟩
  · rw [show ((rewriteStudy m d).isSome = true)
        = ((applyStudy m d).2 = true) from by rw [rewriteStudy_isSome],
      applyStudy_changed]
    simp [List.any_eq_true]
  · intro h
    have hid := applyTables_id m d.tables h
    constructor
    · unfold rewriteStudy applyStudy
      rw [hid]
      simp
    · unfold applyStudy
      rw [hid]
  · intro p hp hex
    have : p ∈ d.tables.zip (applyTables m false d.tables).1 := by
      simpa [applyStudy] using hp
    exact applyTables_concepts_of_changed m false d.tables p this hex

/-- Witness for C9: the sample artifact holds a mapped concept, so it is
written back, and its (changed) table has the rebuilt concepts list. -/
theorem c9_normalize_rewrite_frame_witness :
    (rewriteStudy c9Map c9Data).isSome
    ∧ c9Tbl2.concepts = sortedDedup (c9Tbl2.vars.map (·.concept)) := by
  have h := c9_normalize_rewrite_frame c9Map c9Data
  constructor
  · exact h.1.mpr ⟨c9Tbl, by decide, c9Var, by decide, by decide⟩
  · have hmem : (c9Tbl, c9Tbl2)
        ∈ c9Data.tables.zip (applyStudy c9Map c9Data).1.tables := by decide
    exact h.2.2 (c9Tbl, c9Tbl2) hmem ⟨c9Var, by decide, by decide⟩

/-- Python round(0, 1) is 0. -/
theorem pyRound1_zero : pyRound1 0 = 0 := by
  have h : roundHalfEven 0 = 0 := by
    unfold roundHalfEven
    norm_num
  simp [pyRound1, h]

/-- C7 counterexample: with one table of three variables and one
classification covering one variable, the reported classification_rate is
333/10 — the rate rounded to one decimal — which differs from the exact
quotient classified_variables / total_variables * 100 = 100/3. -/
theorem c7_compute_study_coverage_rate_counterexample :
    (compute_study_coverage [c7Table] [c7Class]).map (·.classification_rate)
        = some (333 / 10)
    ∧ (333 / 10 : ℚ) ≠ (1 : ℚ) / 3 * 100
    ∧ c7Table.variable_count = 3 ∧ c7Class.variable_count = 1 := by
  refine ⟨?_, by norm_num, rfl, rfl⟩
  have h1 : (compute_study_coverage [c7Table] [c7Class]).map
        (·.classification_rate)
      = some (pyRound1 (((1 : Nat) : ℚ) / (((3 : Nat)) : ℚ) * 100)) := rfl
  rw [h1]
  have hq : (((1 : Nat) : ℚ) / (((3 : Nat)) : ℚ) * 100) * 10 = 1000 / 3 := by
    norm_num
  have hfl : ⌊(1000 : ℚ) / 3⌋ = 333 := by
    rw [Int.floor_eq_iff]
    norm_num
  have hlt : (1000 : ℚ) / 3 - ((333 : ℤ) : ℚ) < 1 / 2 := by norm_num
  simp only [pyRound1, roundHalfEven, hq, hfl]
  rw [if_pos hlt]
  norm_num

/-- C7 (amended): for a study with at least one table,
compute_study_coverage reports classification_rate equal to
classified_variables / total_variables * 100 rounded to one decimal place
when total_variables is positive, and exactly 0 — never an error or an
undefined value — when total_variables is 0; the division is guarded and
never executed with a zero divisor. -/
theorem c7_compute_study_coverage_zero_safe (tables : List ParsedTable)
    (classifications : List Classification) (h : tables ≠ []) :
    ∃ st, compute_study_coverage tables classifications = some st
      ∧ st.total_variables = (tables.map (·.variable_count)).sum
      ∧ st.classification_rate
          = (if (tables.map (·.variable_count)).sum > 0 then
              pyRound1
                ((Nat.cast ((classifications.map (·.variable_count)).sum) : ℚ)
                  / (Nat.cast ((tables.map (·.variable_count)).sum) : ℚ) * 100)
            else 0)
      ∧ (st.total_variables = 0 → st.classification_rate = 0) := by
  obtain ⟨t0, rest, rfl⟩ : ∃ a l, tables = a :: l := by
    cases tables with
    | nil => exact absurd rfl h
    | cons a l => exact ⟨a, l, rfl⟩
  refine ⟨_, rfl, rfl, ?_, ?_⟩
  · show pyRound1 _ = _
    by_cases h0 : ((t0 :: rest).map (·.variable_count)).sum > 0
    · rw [if_pos h0, if_pos h0]
    · rw [if_neg h0, if_neg h0, pyRound1_zero]
  · intro h0
    have h00 : ((t0 :: rest).map (·.variable_count)).sum = 0 := h0
    show pyRound1 _ = 0
    have hneg : ¬ ((t0 :: rest).map (·.variable_count)).sum > 0 := by
      omega
    rw [if_neg hneg, pyRound1_zero]

/-- Witness for the amended C7: one table of four variables, one
classification of one variable, reported rate 25 (the rounding is exact
here), and the zero-total branch reports 0. -/
theorem c7_compute_study_coverage_zero_safe_witness :
    (∃ st, compute_study_coverage [c7wTable] [c7wClass] = some st
      ∧ st.classification_rate = 25)
    ∧ (∃ st, compute_study_coverage
          [{ c7wTable with variable_count := 0 }] [] = some st
      ∧ st.classification_rate = 0) := by
  constructor
  · obtain ⟨st, h1, _, h2, _⟩ :=
      c7_compute_study_coverage_zero_safe [c7wTable] [c7wClass] (by simp)
    refine ⟨st, h1, ?_⟩
    rw [h2]
    have hs1 : (([c7wTable]).map (·.variable_count)).sum = 4 := rfl
    have hs2 : (([c7wClass]).map (·.variable_count)).sum = 1 := rfl
    rw [hs1, hs2, if_pos (by norm_num)]
    have hq : ((Nat.cast 1 : ℚ) / (Nat.cast 4 : ℚ) * 100) = 25 := by norm_num
    rw [hq]
    have hfl : ⌊(25 : ℚ) * 10⌋ = 250 := by norm_num
    have hlt : (25 : ℚ) * 10 - ((250 : ℤ) : ℚ) < 1 / 2 := by norm_num
    simp only [pyRound1, roundHalfEven, hfl]
    rw [if_pos hlt]
    norm_num
  · obtain ⟨st, h1, hTot, _, h3⟩ :=
      c7_compute_study_coverage_zero_safe
        [{ c7wTable with variable_count := 0 }] [] (by simp)
    exact ⟨st, h1, h3 (hTot.trans rfl)⟩

end NCPI
